import Mathlib

/-!
Verification of the GuildedChatExporter export engine against its
natural-language specification.

The development shallowly embeds the Python source:

* `guilded_websocket_exporter.py` — the checkpointed, resumable channel
  export engine (`export_channel_history`, `_load_existing_pages`,
  `_save_checkpoint`, `_save_page_file`, `_merge_and_cleanup_pages`,
  `export_server_full`).
* `guilded_to_discord_exporter.py` — the Slate-to-markdown content
  translator (`_process_block`, `_process_text`, `_process_inline`,
  `_process_mention`, `_process_reaction`) and the permission mapper
  (`convert_permissions`, `PERMISSION_MAP`).

Messages are modelled as records carrying an opaque identifier (embedded as
`Nat`; the Python ids are opaque strings used only for equality).  The REST
endpoint `GET channels/<id>/messages?beforeId=<cursor>` is modelled by a
deterministic stable dataset `ds : List Msg`: the response to a cursorless
request is the first 50 records of `ds`, and the response to `beforeId = c`
is the next 50 records of `ds` following the record with id `c`, which is
exactly the contract the pagination loop relies on.
-/

namespace GuildedExport

/-- A chat message record; `id` is the opaque identifier used as cursor. -/
structure Msg where
  id : Nat
deriving DecidableEq, Repr

/-- Records of the dataset strictly after the record with id `c`
(scanning from the front, dropping through the first match). -/
def dropThroughId (c : Nat) : List Msg → List Msg
  | [] => []
  | m :: ms => if m.id = c then ms else dropThroughId c ms

/-- The REST message endpoint for a stable dataset `ds`: one page of at
most 50 records, starting after the cursor (or at the front without one). -/
def apiFetch (ds : List Msg) (cursor : Option Nat) : List Msg :=
  match cursor with
  | none => ds.take 50
  | some c => (dropThroughId c ds).take 50

/-- The id of the last message of a page (`messages[-1].get("id")`). -/
def lastIdOf (l : List Msg) : Option Nat :=
  l.getLast?.map Msg.id

/-- One per-channel checkpoint entry.  `none` in an optional field means
the corresponding JSON key is absent from the entry. -/
structure ChannelRecord where
  status : String
  pages_fetched : Option Nat
  messages_exported : Nat
  last_message_id : Option Nat
deriving DecidableEq, Repr

/-- State produced by the channel-history pagination loop: the
accumulated message list, the page artifacts on disk (index order), and
the sequence of checkpoint entries written during the loop. -/
structure LoopOut where
  messages : List Msg
  pages : List (List Msg)
  records : List ChannelRecord
deriving DecidableEq, Repr

/-- The pagination loop of `export_channel_history` (lines 543-588):
fetch a page for the current cursor; stop on an empty page; otherwise
append it, write the page artifact, write an `in_progress` checkpoint
entry, stop if the page is shorter than 50, else continue from the last
record's id.  `fuel` bounds the recursion (the Python loop terminates
because the dataset is finite). -/
def exportLoop (ds : List Msg) :
    Nat → List Msg → List (List Msg) → List ChannelRecord → Nat → Option Nat → LoopOut
  | 0, acc, pages, records, _, _ => ⟨acc, pages, records⟩
  | fuel + 1, acc, pages, records, page, cursor =>
    let messages := apiFetch ds cursor
    if messages.isEmpty then ⟨acc, pages, records⟩
    else
      let acc2 := acc ++ messages
      let pages2 := pages ++ [messages]
      let records2 := records ++
        [⟨"in_progress", some (page + 1), acc2.length, lastIdOf messages⟩]
      if messages.length < 50 then ⟨acc2, pages2, records2⟩
      else exportLoop ds fuel acc2 pages2 records2 (page + 1) (lastIdOf messages)

/-- Body of `_load_existing_pages` (lines 301-328): scan page artifacts in
ascending index order, concatenating their messages, counting pages, and
remembering the last id of the last non-empty page. -/
def loadPagesAux : List (List Msg) → List Msg → Nat → Option Nat →
    List Msg × Nat × Option Nat
  | [], acc, n, last => (acc, n, last)
  | p :: ps, acc, n, last =>
    loadPagesAux ps (acc ++ p) (n + 1)
      (match p.getLast? with
       | some m => some m.id
       | none => last)

/-- `_load_existing_pages`: returns `(all_messages, page, last_message_id)`
for the contiguous page artifacts currently on disk. -/
def loadExistingPages (disk : List (List Msg)) : List Msg × Nat × Option Nat :=
  loadPagesAux disk [] 0 none

/-- `export_channel_history` with a page directory (lines 513-591): load
any existing page artifacts, resume from the last loaded message's id if
any page was loaded, then run the pagination loop. -/
def exportChannelHistory (ds : List Msg) (disk : List (List Msg)) : LoopOut :=
  let loaded := loadExistingPages disk
  if 0 < loaded.2.1 then
    exportLoop ds (ds.length + 1) loaded.1 disk [] loaded.2.1 loaded.2.2
  else
    exportLoop ds (ds.length + 1) [] [] [] 0 none

/-- One uninterrupted run of `export_channel_history` on an empty
directory. -/
def fullRun (ds : List Msg) : LoopOut :=
  exportChannelHistory ds []

/-- The 50-element chunking of a list: the page decomposition an
uninterrupted run produces. -/
def chunks50 (l : List Msg) : List (List Msg) :=
  if l = [] then [] else l.take 50 :: chunks50 (l.drop 50)
termination_by l.length
decreasing_by
  rename_i h
  simp only [List.length_drop]
  have : l.length ≠ 0 := fun hz => h (List.length_eq_zero.mp hz)
  omega

/-- The pagination loop of `export_channel_history` in the presence of a
transport or API error: the request counter `req` increments per fetch,
and the fetch numbered `failAt` raises.  The `except` handler (lines
586-588) logs and breaks, returning the accumulated messages; page
artifacts already written stay on disk. -/
def exportLoopErr (ds : List Msg) (failAt : Nat) :
    Nat → Nat → List Msg → List (List Msg) → Option Nat → List Msg × List (List Msg)
  | 0, _, acc, pages, _ => (acc, pages)
  | fuel + 1, req, acc, pages, cursor =>
    if req = failAt then (acc, pages)
    else
      let messages := apiFetch ds cursor
      if messages.isEmpty then (acc, pages)
      else
        let acc2 := acc ++ messages
        let pages2 := pages ++ [messages]
        if messages.length < 50 then (acc2, pages2)
        else exportLoopErr ds failAt fuel (req + 1) acc2 pages2 (lastIdOf messages)

/-- The part of the dataset that a fetch at the given cursor starts from:
the whole dataset without a cursor, the records after the cursor id
otherwise. -/
def restAfter (ds : List Msg) (cursor : Option Nat) : List Msg :=
  match cursor with
  | none => ds
  | some c => dropThroughId c ds

/-! ### Checkpoint persistence (`_save_checkpoint`, lines 279-290) -/

/-- On-disk state relevant to `_save_checkpoint`: the checkpoint file and
the temporary file, each either absent or holding some content. -/
structure CheckpointFS where
  checkpoint : Option String
  tmp : Option String
deriving DecidableEq, Repr

/-- Primitive filesystem steps taken by `_save_checkpoint`: a write that
leaves the temp file holding some (possibly still incomplete) content,
and the atomic `os.replace` of the temp file over the checkpoint path. -/
inductive SaveStep where
  | writeTmp (content : String)
  | rename
deriving DecidableEq, Repr

/-- Effect of one primitive step on the filesystem. -/
def applySaveStep (fs : CheckpointFS) : SaveStep → CheckpointFS
  | .writeTmp c => { fs with tmp := some c }
  | .rename => { checkpoint := fs.tmp, tmp := none }

/-- The step trace of `_save_checkpoint`: the temp file passes through a
sequence of partial contents while `json.dump` runs, ends holding the
full serialized checkpoint, and `os.replace` then renames it over the
checkpoint path.  A crash at any point corresponds to stopping after a
prefix of this trace. -/
def saveCheckpointTrace (partials : List String) (newContent : String) : List SaveStep :=
  (partials.map SaveStep.writeTmp) ++ [SaveStep.writeTmp newContent, SaveStep.rename]

/-- Run a sequence of primitive steps. -/
def runSaveSteps (fs : CheckpointFS) (steps : List SaveStep) : CheckpointFS :=
  steps.foldl applySaveStep fs

/-! ### Merge and cleanup (`_merge_and_cleanup_pages`, lines 330-353) -/

/-- The merged channel artifact `channel_<id>_messages.json`:
`{channel, messages, export_timestamp, total_messages}` (the wall-clock
timestamp is outside the model). -/
structure MergedArtifact where
  channel : String
  messages : List Msg
  total_messages : Nat
deriving DecidableEq, Repr

/-- The page-artifact deletion loop of `_merge_and_cleanup_pages` (lines
342-350): delete `channel_<id>_page_<n>.json` for n = 1, 2, ... while the
file exists.  The page directory is a map from 1-based page index to the
page contents, `none` meaning the file does not exist. -/
def deletePages : (Nat → Option (List Msg)) → Nat → Nat → (Nat → Option (List Msg))
  | disk, _, 0 => disk
  | disk, page, fuel + 1 =>
    match disk page with
    | some _ => deletePages (fun n => if n = page then none else disk n) (page + 1) fuel
    | none => disk

/-- `_merge_and_cleanup_pages`: write the merged artifact with
`total_messages = len(all_messages)` and then run the deletion loop. -/
def mergeAndCleanupPages (channel : String) (allMessages : List Msg)
    (disk : Nat → Option (List Msg)) (fuel : Nat) :
    MergedArtifact × (Nat → Option (List Msg)) :=
  (⟨channel, allMessages, allMessages.length⟩, deletePages disk 1 fuel)

/-- The page directory after a capture loop wrote `pages`: index `n`
(1-based) holds the n-th page artifact; nothing else exists. -/
def diskOfPages (pages : List (List Msg)) (n : Nat) : Option (List Msg) :=
  if n = 0 then none else pages[n - 1]?

/-! ### Per-channel pass of `export_server_full` (lines 658-700) -/

/-- The checkpoint entry `export_server_full` writes when a channel's
capture finishes: only `status` and `messages_exported` are kept, whether
or not the channel had messages. -/
def doneRecord (n : Nat) : ChannelRecord :=
  ⟨"done", none, n, none⟩

/-- The per-channel state `export_server_full` consults between runs: the
channel's checkpoint entry (if any), the merged artifact (if present on
disk), and the page artifacts left on disk. -/
structure ServerChannelState where
  record : Option ChannelRecord
  merged : Option MergedArtifact
  pagesOnDisk : List (List Msg)
deriving DecidableEq, Repr

/-- The skip-on-resume condition (lines 663-670): the checkpoint entry
says `done` and the merged `channel_<id>_messages.json` exists. -/
def skipChannel (st : ServerChannelState) : Bool :=
  match st.record with
  | some r => r.status = "done" && st.merged.isSome
  | none => false

/-- One pass of `export_server_full` over a single channel: skip if
already done with a merged artifact on disk; otherwise capture the
history (resuming from any page artifacts), then either merge, clean up
and record `done` (non-empty capture) or record `done` with zero messages
and no merge (empty capture).  The boolean reports whether the channel
was fetched from the API during this pass. -/
def processServerChannel (ds : List Msg) (ch : String) (st : ServerChannelState) :
    ServerChannelState × Bool :=
  if skipChannel st then (st, false)
  else
    let run := exportChannelHistory ds st.pagesOnDisk
    if run.messages.isEmpty then
      ({ st with record := some (doneRecord 0) }, true)
    else
      ({ record := some (doneRecord run.messages.length),
         merged := some ⟨ch, run.messages, run.messages.length⟩,
         pagesOnDisk := [] }, true)

/-! ### Content translator (`guilded_to_discord_exporter.py`, lines 194-319) -/

/-- A formatting mark on a span of text (`{"type": ...}`). -/
structure Mark where
  type : String
deriving DecidableEq, Repr

/-- A text leaf: raw text plus its list of marks, in source order. -/
structure Leaf where
  text : String
  marks : List Mark
deriving DecidableEq, Repr

/-- The `mention` object inside a mention node's data; `name` is `none`
when the JSON key is absent. -/
structure MentionInfo where
  type : String
  id : String
  name : Option String
deriving DecidableEq, Repr

/-- A custom emoji record (`customReaction`); `apng` is `some` exactly
when the animated-image key is present. -/
structure CustomReaction where
  id : String
  name : String
  apng : Option String
deriving DecidableEq, Repr

/-- The `reaction` object inside a reaction node's data. -/
structure ReactionInfo where
  id : String
  customReaction : Option CustomReaction
deriving DecidableEq, Repr

/-- The `data` dictionary of a node, with the keys the translator reads;
absent keys are modelled by the same defaults `dict.get` supplies. -/
structure NodeData where
  href : String
  mention : MentionInfo
  channelId : Option String
  reaction : ReactionInfo
deriving DecidableEq, Repr

/-- A node data dictionary with every key absent. -/
def emptyData : NodeData :=
  ⟨"", ⟨"", "", none⟩, none, ⟨"", none⟩⟩

/-- A Slate document-tree node: `object` is `block`, `text` or `inline`,
each with its `type` tag, children/leaves and `data`. -/
inductive Node where
  | block (type : String) (nodes : List Node) (data : NodeData)
  | text (type : String) (leaves : List Leaf) (data : NodeData)
  | inline (type : String) (nodes : List Node) (data : NodeData)

/-- One iteration of the mark loop in `_process_text` (lines 253-264):
wrap the accumulated text according to the mark's type; an unrecognized
mark type leaves the text unchanged. -/
def applyMark (text : String) (markType : String) : String :=
  if markType = "bold" then "**" ++ text ++ "**"
  else if markType = "italic" then "*" ++ text ++ "*"
  else if markType = "underline" then "__" ++ text ++ "__"
  else if markType = "strikethrough" then "~~" ++ text ++ "~~"
  else if markType = "code" then "`" ++ text ++ "`"
  else text

/-- Rendering of one leaf: the marks are folded over the leaf's text in
their source order, each wrapping the text accumulated so far. -/
def processLeaf (leaf : Leaf) : String :=
  leaf.marks.foldl (fun t m => applyMark t m.type) leaf.text

/-- `_process_mention` (lines 287-303). -/
def processMention (data : NodeData) : String :=
  let mention := data.mention
  if mention.type = "person" then "<@" ++ mention.id ++ ">"
  else if mention.type = "role" then "<@&" ++ mention.id ++ ">"
  else if mention.type = "channel" then "<#" ++ (data.channelId.getD mention.id) ++ ">"
  else "@" ++ (mention.name.getD mention.id)

/-- `_process_reaction` (lines 305-319). -/
def processReaction (data : NodeData) : String :=
  match data.reaction.customReaction with
  | some cr =>
    (if cr.apng.isSome then "<a:" else "<:") ++ cr.name ++ ":" ++ cr.id ++ ">"
  | none => ":" ++ data.reaction.id ++ ":"

/-- `_process_text` (lines 239-268): a text node of type `mention` defers
to the mention renderer; otherwise each leaf is rendered and the results
are joined. -/
def processText (type : String) (leaves : List Leaf) (data : NodeData) : String :=
  if type = "mention" then processMention data
  else String.join (leaves.map processLeaf)

/-- The leaves of the first child node
(`inline_node.get("nodes", [{}])[0].get("leaves", [])`): an empty child
list or a first child without leaves yields `[]`. -/
def firstLeaves : List Node → List Leaf
  | Node.text _ leaves _ :: _ => leaves
  | _ => []

/-- `_process_inline` (lines 270-285): dispatch on the inline type; an
unrecognized type falls through to the final `return ""`. -/
def processInline (type : String) (nodes : List Node) (data : NodeData) : String :=
  if type = "link" then
    let href := data.href
    let text :=
      match firstLeaves nodes with
      | l :: _ => l.text
      | [] => href
    "[" ++ text ++ "](" ++ href ++ ")"
  else if type = "mention" then processMention data
  else if type = "reaction" then processReaction data
  else ""

/-- The child-content accumulation of `_process_block` (lines 223-228):
text and inline children are rendered and concatenated in order; any
other child contributes nothing. -/
def blockContent (nodes : List Node) : String :=
  nodes.foldl
    (fun acc n =>
      match n with
      | Node.text t leaves d => acc ++ processText t leaves d
      | Node.inline t ns d => acc ++ processInline t ns d
      | Node.block _ _ _ => acc)
    ""

/-- `_process_block` (lines 218-237): `markdown-plain-text` and
`paragraph` return the content unchanged, `code-line` wraps it in
backtick delimiters, and any other block type returns the content. -/
def processBlock (type : String) (nodes : List Node) : String :=
  let content := blockContent nodes
  if type = "markdown-plain-text" then content
  else if type = "paragraph" then content
  else if type = "code-line" then "`" ++ content ++ "`"
  else content

/-! ### Permission mapper (`convert_permissions`, lines 181-192) -/

/-- The static `PERMISSION_MAP` lookup table (lines 35-100), verbatim. -/
def PERMISSION_MAP : List (String × Nat) :=
  [("CanUpdateTeam", 0x00000020),
   ("CanManageRoles", 0x10000000),
   ("CanInviteMembers", 0x00000001),
   ("CanKickMembers", 0x00000006),
   ("CanManageChannels", 0x00000010),
   ("CanManageWebhooks", 0x20000000),
   ("CanMentionEveryone", 0x00020000),
   ("CanModerateChannels", 0x00002000),
   ("CanBypassSlowMode", 0x00000000),
   ("CanManageGroups", 0x00000010),
   ("CanReadChats", 0x00000400),
   ("CanCreateChats", 0x00000800),
   ("CanUploadChatMedia", 0x00008000),
   ("CanManageChats", 0x00002000),
   ("CanCreateChatThreads", 0x0000800000000000),
   ("CanReplyToChatThreads", 0x0000800000000000),
   ("CanCreatePrivateMessages", 0x00000800),
   ("CanManageChatThreads", 0x0004000000000000),
   ("CanListenVoice", 0x00100000),
   ("CanAddVoice", 0x00200000),
   ("CanMuteMembers", 0x00400000),
   ("CanDeafenMembers", 0x00800000),
   ("CanAssignVoiceGroup", 0x01000000),
   ("CanBroadcastVoice", 0x00200000),
   ("CanDirectVoice", 0x00200000),
   ("CanPrioritizeVoice", 0x00200000),
   ("CanUseVoiceActivity", 0x02000000),
   ("CanManageVoiceGroups", 0x00000010),
   ("CanSendVoiceMessages", 0x00000800),
   ("CanReadAnnouncements", 0x00000400),
   ("CanCreateAnnouncementsV2", 0x00000800),
   ("CanManageAnnouncements", 0x00002000),
   ("CanReadEvents", 0x00000400),
   ("CanCreateEvents", 0x00100000),
   ("CanEditEvents", 0x00100000),
   ("CanDeleteEvents", 0x00100000),
   ("CanEditEventRsvps", 0x00100000),
   ("CanReadForums", 0x00000400),
   ("CanCreateThreads", 0x0000800000000000),
   ("CanCreateThreadReplies", 0x00000800),
   ("CanDeleteOtherPosts", 0x00002000),
   ("CanStickyPosts", 0x00002000),
   ("CanLockThreads", 0x0004000000000000),
   ("CanReadMedia", 0x00000400),
   ("CanAddMedia", 0x00008000),
   ("CanEditMedia", 0x00002000),
   ("CanDeleteMedia", 0x00002000),
   ("CanManageCustomReactions", 0x40000000),
   ("CanChangeNickname", 0x04000000),
   ("CanManageNicknames", 0x08000000),
   ("CanReadStreams", 0x00000400),
   ("CanJoinStreamVoice", 0x00100000),
   ("CanCreateStreams", 0x00000200),
   ("CanSendStreamMessages", 0x00000800),
   ("CanAddStreamVoice", 0x00200000),
   ("CanUseVoiceActivityInStream", 0x02000000)]

/-- Lookup of a flag name in the static table (`perm_id in PERMISSION_MAP`
and `PERMISSION_MAP[perm_id]`). -/
def lookupPerm (name : String) : Option Nat :=
  (PERMISSION_MAP.find? (fun e => e.1 = name)).map (·.2)

/-- `convert_permissions`: iterate every category and every flag inside
it; a flag whose value is true and whose name is in the table ORs its bit
pattern into the accumulator; everything else is skipped. -/
def convert_permissions (guildedPerms : List (String × List (String × Bool))) : Nat :=
  guildedPerms.foldl
    (fun acc cat =>
      cat.2.foldl
        (fun a f =>
          if f.2 && (lookupPerm f.1).isSome then a ||| (lookupPerm f.1).getD 0 else a)
        acc)
    0

/-- Restatement of the spec's words for the permission mapper: the
bitwise OR, over every flag (in any category) whose value is true and
whose name is present in the lookup table, of that flag's bit pattern. -/
def bitmaskSpec (guildedPerms : List (String × List (String × Bool))) : Nat :=
  ((guildedPerms.flatMap Prod.snd).filter
      (fun f => f.2 && (lookupPerm f.1).isSome)).foldl
    (fun a f => a ||| (lookupPerm f.1).getD 0) 0

/-! ### Concrete datasets used by witnesses and counterexamples -/

/-- A 120-message dataset with pairwise distinct ids (the spec's
three-page scenario: pages of 50, 50, 20). -/
def ds120 : List Msg := (List.range 120).map (fun i => ⟨i⟩)

/-- A 60-message dataset with pairwise distinct ids (two pages: 50, 10). -/
def ds60 : List Msg := (List.range 60).map (fun i => ⟨i⟩)

/-- A 3-message dataset with pairwise distinct ids (a single short page). -/
def ds3 : List Msg := [⟨0⟩, ⟨1⟩, ⟨2⟩]

/-! ## Helper lemmas about the pagination model -/

theorem apiFetch_eq (ds : List Msg) (cursor : Option Nat) :
    apiFetch ds cursor = (restAfter ds cursor).take 50 := by
  cases cursor <;> rfl

theorem dropThroughId_append (m : Msg) (q rest : List Msg)
    (h : ∀ p ∈ q, p.id ≠ m.id) :
    dropThroughId m.id (q ++ m :: rest) = rest := by
  induction q with
  | nil => simp [dropThroughId]
  | cons p ps ih =>
    have hp : p.id ≠ m.id := h p (List.mem_cons_self p ps)
    simp only [List.cons_append, dropThroughId, if_neg hp]
    exact ih (fun x hx => h x (List.mem_cons_of_mem p hx))

theorem restAfter_lastIdOf (q rest : List Msg)
    (hn : ((q ++ rest).map Msg.id).Nodup) :
    restAfter (q ++ rest) (lastIdOf q) = rest := by
  rcases List.eq_nil_or_concat q with hq | ⟨q', m, hq⟩
  · subst hq
    simp [lastIdOf, restAfter]
  · subst hq
    rw [List.concat_eq_append] at hn ⊢
    have hlast : lastIdOf (q' ++ [m]) = some m.id := by
      simp [lastIdOf, List.getLast?_concat]
    rw [hlast]
    show dropThroughId m.id ((q' ++ [m]) ++ rest) = rest
    rw [List.append_assoc]
    apply dropThroughId_append
    intro p hp hpm
    have h1 : (q' ++ [m] ++ rest).map Msg.id =
        q'.map Msg.id ++ (m.id :: rest.map Msg.id) := by
      simp
    rw [h1] at hn
    have hd := List.disjoint_of_nodup_append hn
    exact hd (List.mem_map_of_mem Msg.id hp)
      (by rw [hpm]; exact List.mem_cons_self _ _)

theorem lastIdOf_append (q l : List Msg) (h : l ≠ []) :
    lastIdOf (q ++ l) = lastIdOf l := by
  unfold lastIdOf
  rw [List.getLast?_append]
  rcases ho : l.getLast? with _ | m
  · rw [List.getLast?_eq_none_iff] at ho; exact absurd ho h
  · simp [Option.or]

theorem chunks50_eq_nil : chunks50 [] = [] := by
  rw [chunks50]; simp

theorem chunks50_eq_cons (l : List Msg) (h : l ≠ []) :
    chunks50 l = l.take 50 :: chunks50 (l.drop 50) := by
  rw [chunks50]; simp [h]

theorem chunks50_flatten (l : List Msg) : (chunks50 l).flatten = l := by
  by_cases h : l = []
  · subst h; simp [chunks50_eq_nil]
  · rw [chunks50_eq_cons l h, List.flatten_cons, chunks50_flatten (l.drop 50),
      List.take_append_drop]
termination_by l.length
decreasing_by
  simp only [List.length_drop]
  have : l.length ≠ 0 := fun hz => h (List.length_eq_zero.mp hz)
  omega

theorem chunks50_ne_nil (l p : List Msg) (hp : p ∈ chunks50 l) : p ≠ [] := by
  by_cases h : l = []
  · subst h; rw [chunks50_eq_nil] at hp; cases hp
  · rw [chunks50_eq_cons l h] at hp
    rcases List.mem_cons.mp hp with hp | hp
    · subst hp
      rcases l with _ | ⟨x, xs⟩
      · exact absurd rfl h
      · simp
    · exact chunks50_ne_nil (l.drop 50) p hp
termination_by l.length
decreasing_by
  simp only [List.length_drop]
  have : l.length ≠ 0 := fun hz => h (List.length_eq_zero.mp hz)
  omega

theorem chunks50_length (l : List Msg) :
    (chunks50 l).length = (l.length + 49) / 50 := by
  by_cases h : l = []
  · subst h; simp [chunks50_eq_nil]
  · rw [chunks50_eq_cons l h]
    simp only [List.length_cons, chunks50_length (l.drop 50), List.length_drop]
    have : l.length ≠ 0 := fun hz => h (List.length_eq_zero.mp hz)
    omega
termination_by l.length
decreasing_by
  simp only [List.length_drop]
  have : l.length ≠ 0 := fun hz => h (List.length_eq_zero.mp hz)
  omega

theorem chunks50_getLast (l : List Msg) (h : l ≠ []) :
    (chunks50 l).getLast?.map List.length =
      some (if l.length % 50 = 0 then 50 else l.length % 50) := by
  have hpos : l.length ≠ 0 := fun hz => h (List.length_eq_zero.mp hz)
  by_cases h50 : l.length ≤ 50
  · rw [chunks50_eq_cons l h, List.drop_eq_nil_of_le h50, chunks50_eq_nil,
      List.take_of_length_le h50]
    simp only [List.getLast?_singleton, Option.map_some']
    congr 1
    by_cases hm : l.length % 50 = 0
    · rw [if_pos hm]; omega
    · rw [if_neg hm]; exact (Nat.mod_eq_of_lt (by omega)).symm
  · push_neg at h50
    have hdne : l.drop 50 ≠ [] := by
      intro hz
      have := congrArg List.length hz
      simp only [List.length_drop, List.length_nil] at this
      omega
    have hstep : chunks50 l = [l.take 50] ++ chunks50 (l.drop 50) := by
      rw [chunks50_eq_cons l h]; rfl
    rw [hstep, List.getLast?_append]
    have hrec := chunks50_getLast (l.drop 50) hdne
    rcases ho : (chunks50 (l.drop 50)).getLast? with _ | q
    · rw [ho] at hrec; simp at hrec
    · rw [ho] at hrec
      simp only [Option.map_some'] at hrec
      simp only [Option.or, Option.map_some']
      rw [hrec]
      simp only [List.length_drop]
      have heq : (l.length - 50) % 50 = l.length % 50 := by omega
      rw [heq]
termination_by l.length
decreasing_by
  simp only [List.length_drop]
  omega

theorem chunks50_flatten_take (k : Nat) :
    ∀ l : List Msg, ((chunks50 l).take k).flatten = l.take (50 * k) := by
  induction k with
  | zero => intro l; simp
  | succ k ih =>
    intro l
    by_cases h : l = []
    · subst h; simp [chunks50_eq_nil]
    · rw [chunks50_eq_cons l h]
      simp only [List.take_succ_cons, List.flatten_cons]
      rw [ih (l.drop 50)]
      have h1 : 50 * (k + 1) = 50 + 50 * k := by ring
      rw [h1, List.take_add]

theorem chunks50_drop (k : Nat) :
    ∀ l : List Msg, chunks50 (l.drop (50 * k)) = (chunks50 l).drop k := by
  induction k with
  | zero => intro l; simp
  | succ k ih =>
    intro l
    by_cases h : l = []
    · subst h; simp [chunks50_eq_nil]
    · rw [chunks50_eq_cons l h]
      simp only [List.drop_succ_cons]
      rw [← ih (l.drop 50)]
      congr 1
      rw [List.drop_drop]
      congr 1
      omega

theorem loadPagesAux_spec (disk : List (List Msg)) :
    ∀ (acc : List Msg) (n : Nat) (last : Option Nat),
      (∀ p ∈ disk, p ≠ []) →
      loadPagesAux disk acc n last =
        (acc ++ disk.flatten, n + disk.length,
          (disk.flatten.getLast?.map Msg.id).or last) := by
  induction disk with
  | nil => intro acc n last _; simp [loadPagesAux]
  | cons p ps ih =>
    intro acc n last hne
    have hp : p ≠ [] := hne p (List.mem_cons_self _ _)
    rw [loadPagesAux, ih _ _ _ (fun x hx => hne x (List.mem_cons_of_mem _ hx))]
    rcases hl : p.getLast? with _ | m
    · rw [List.getLast?_eq_none_iff] at hl; exact absurd hl hp
    · simp only [Prod.mk.injEq]
      refine ⟨by simp, by simp only [List.length_cons]; omega, ?_⟩
      rw [List.flatten_cons, List.getLast?_append, hl]
      rcases ho : ps.flatten.getLast? with _ | x <;> simp [Option.or]

theorem exportLoop_spec (ds : List Msg) (hn : (ds.map Msg.id).Nodup) :
    ∀ (fuel : Nat) (q rest acc : List Msg) (pages : List (List Msg))
      (records : List ChannelRecord) (page : Nat),
      ds = q ++ rest → rest.length < fuel →
      (exportLoop ds fuel acc pages records page (lastIdOf q)).messages = acc ++ rest ∧
      (exportLoop ds fuel acc pages records page (lastIdOf q)).pages = pages ++ chunks50 rest := by
  intro fuel
  induction fuel with
  | zero => intro q rest acc pages records page _ hf; omega
  | succ f ih =>
    intro q rest acc pages records page hds hf
    have hn' : ((q ++ rest).map Msg.id).Nodup := by rw [← hds]; exact hn
    have hfetch : apiFetch ds (lastIdOf q) = rest.take 50 := by
      rw [hds, apiFetch_eq, restAfter_lastIdOf q rest hn']
    by_cases hrest : rest = []
    · subst hrest
      simp only [exportLoop, hfetch, List.take_nil, List.isEmpty_nil, if_true]
      simp [chunks50_eq_nil]
    · have htne : rest.take 50 ≠ [] := by
        rcases rest with _ | ⟨x, xs⟩
        · exact absurd rfl hrest
        · simp
      have hemp : ¬ ((rest.take 50).isEmpty = true) := by
        rcases h' : rest.take 50 with _ | ⟨y, ys⟩
        · exact absurd h' htne
        · simp
      by_cases hlt : rest.length < 50
      · have ht : rest.take 50 = rest := List.take_of_length_le (by omega)
        rw [ht] at hemp
        simp only [exportLoop, hfetch, ht]
        rw [if_neg hemp, if_pos hlt]
        refine ⟨rfl, ?_⟩
        rw [chunks50_eq_cons rest hrest, List.drop_eq_nil_of_le (by omega),
          chunks50_eq_nil, ht]
      · push_neg at hlt
        have hlen : (rest.take 50).length = 50 := by
          rw [List.length_take]; omega
        have hnlt : ¬ (rest.take 50).length < 50 := by omega
        have hc : lastIdOf (rest.take 50) = lastIdOf (q ++ rest.take 50) :=
          (lastIdOf_append q (rest.take 50) htne).symm
        have hds2 : ds = (q ++ rest.take 50) ++ rest.drop 50 := by
          rw [List.append_assoc, List.take_append_drop]; exact hds
        have hf2 : (rest.drop 50).length < f := by
          rw [List.length_drop]; omega
        simp only [exportLoop, hfetch]
        rw [if_neg hemp, if_neg hnlt, hc]
        obtain ⟨h1, h2⟩ := ih (q ++ rest.take 50) (rest.drop 50)
          (acc ++ rest.take 50) (pages ++ [rest.take 50])
          (records ++ [⟨"in_progress", some (page + 1),
            (acc ++ rest.take 50).length, lastIdOf (q ++ rest.take 50)⟩])
          (page + 1) hds2 hf2
        refine ⟨?_, ?_⟩
        · rw [h1, List.append_assoc, List.take_append_drop]
        · rw [h2, chunks50_eq_cons rest hrest, List.append_assoc]
          rfl

theorem fullRun_eq (ds : List Msg) (hn : (ds.map Msg.id).Nodup) :
    (fullRun ds).messages = ds ∧ (fullRun ds).pages = chunks50 ds := by
  have h := exportLoop_spec ds hn (ds.length + 1) [] ds [] [] [] 0 rfl (by omega)
  simp only [List.nil_append] at h
  unfold fullRun exportChannelHistory loadExistingPages loadPagesAux
  simpa [lastIdOf] using h

theorem loadExistingPages_chunks (ds : List Msg) (k : Nat) :
    loadExistingPages ((chunks50 ds).take k) =
      (ds.take (50 * k), ((chunks50 ds).take k).length,
        lastIdOf (ds.take (50 * k))) := by
  unfold loadExistingPages
  rw [loadPagesAux_spec _ _ _ _
    (fun p hp => chunks50_ne_nil ds p (List.mem_of_mem_take hp))]
  rw [chunks50_flatten_take]
  simp [lastIdOf, Option.or_none]

theorem exportLoopErr_spec (ds : List Msg) (hn : (ds.map Msg.id).Nodup)
    (failAt : Nat) :
    ∀ (fuel : Nat) (q rest acc : List Msg) (pages : List (List Msg)) (req : Nat),
      ds = q ++ rest → rest.length < fuel → req ≤ failAt →
      50 * (failAt - req) ≤ rest.length →
      exportLoopErr ds failAt fuel req acc pages (lastIdOf q) =
        (acc ++ rest.take (50 * (failAt - req)),
          pages ++ (chunks50 rest).take (failAt - req)) := by
  intro fuel
  induction fuel with
  | zero => intro q rest acc pages req _ hf _ _; omega
  | succ f ih =>
    intro q rest acc pages req hds hf hreq hlen
    have hn' : ((q ++ rest).map Msg.id).Nodup := by rw [← hds]; exact hn
    have hfetch : apiFetch ds (lastIdOf q) = rest.take 50 := by
      rw [hds, apiFetch_eq, restAfter_lastIdOf q rest hn']
    by_cases hstop : req = failAt
    · subst hstop
      simp only [exportLoopErr, if_pos rfl]
      simp
    · have hd : 1 ≤ failAt - req := by omega
      have h50 : 50 ≤ rest.length := by omega
      have hrest : rest ≠ [] := by
        intro hz; rw [hz] at h50; simp at h50
      have htne : rest.take 50 ≠ [] := by
        rcases rest with _ | ⟨x, xs⟩
        · exact absurd rfl hrest
        · simp
      have hemp : ¬ ((rest.take 50).isEmpty = true) := by
        rcases h' : rest.take 50 with _ | ⟨y, ys⟩
        · exact absurd h' htne
        · simp
      have hlen50 : (rest.take 50).length = 50 := by
        rw [List.length_take]; omega
      have hnlt : ¬ (rest.take 50).length < 50 := by omega
      have hc : lastIdOf (rest.take 50) = lastIdOf (q ++ rest.take 50) :=
        (lastIdOf_append q (rest.take 50) htne).symm
      have hds2 : ds = (q ++ rest.take 50) ++ rest.drop 50 := by
        rw [List.append_assoc, List.take_append_drop]; exact hds
      have hf2 : (rest.drop 50).length < f := by
        rw [List.length_drop]; omega
      have hreq2 : req + 1 ≤ failAt := by omega
      have hlen2 : 50 * (failAt - (req + 1)) ≤ (rest.drop 50).length := by
        rw [List.length_drop]; omega
      simp only [exportLoopErr, if_neg hstop, hfetch]
      rw [if_neg hemp, if_neg hnlt, hc]
      rw [ih (q ++ rest.take 50) (rest.drop 50) (acc ++ rest.take 50)
        (pages ++ [rest.take 50]) (req + 1) hds2 hf2 hreq2 hlen2]
      obtain ⟨e, he⟩ : ∃ e, failAt - req = e + 1 := ⟨failAt - req - 1, by omega⟩
      have he2 : failAt - (req + 1) = e := by omega
      rw [he, he2]
      refine Prod.ext ?_ ?_
      · show acc ++ rest.take 50 ++ (rest.drop 50).take (50 * e) =
          acc ++ rest.take (50 * (e + 1))
        have h1 : 50 * (e + 1) = 50 + 50 * e := by ring
        rw [h1, List.take_add, List.append_assoc]
      · show pages ++ [rest.take 50] ++ (chunks50 (rest.drop 50)).take e =
          pages ++ (chunks50 rest).take (e + 1)
        rw [chunks50_eq_cons rest hrest, List.take_succ_cons, List.append_assoc]
        rfl

/-! ## Claim theorems -/

/-- C1: Resume equivalence.  For every deterministic stable dataset with
pairwise-distinct message ids and every interruption point `k`, running
`export_channel_history` on a directory holding the first `k` page
artifacts of an uninterrupted run (reloaded via `_load_existing_pages`,
continuing from the last loaded message's id as cursor) produces the
same merged message sequence, in the same order, and the same page
artifacts as the uninterrupted run. -/
theorem resume_equivalence (ds : List Msg) (k : Nat)
    (hn : (ds.map Msg.id).Nodup) :
    (exportChannelHistory ds ((fullRun ds).pages.take k)).messages =
      (fullRun ds).messages ∧
    (exportChannelHistory ds ((fullRun ds).pages.take k)).pages =
      (fullRun ds).pages := by
  obtain ⟨hm, hp⟩ := fullRun_eq ds hn
  rw [hm, hp]
  by_cases hk : ((chunks50 ds).take k).length = 0
  · rw [List.length_eq_zero.mp hk]
    exact fullRun_eq ds hn
  · have hpos : 0 < ((chunks50 ds).take k).length := Nat.pos_of_ne_zero hk
    unfold exportChannelHistory
    rw [loadExistingPages_chunks]
    simp only []
    rw [if_pos hpos]
    have hds : ds = ds.take (50 * k) ++ ds.drop (50 * k) :=
      (List.take_append_drop _ ds).symm
    obtain ⟨h1, h2⟩ := exportLoop_spec ds hn (ds.length + 1)
      (ds.take (50 * k)) (ds.drop (50 * k)) (ds.take (50 * k))
      ((chunks50 ds).take k) [] ((chunks50 ds).take k).length hds
      (by rw [List.length_drop]; omega)
    refine ⟨?_, ?_⟩
    · rw [h1, List.take_append_drop]
    · rw [h2, chunks50_drop, List.take_append_drop]

/-- C1 witness: a concrete 60-message channel interrupted after page 1
resumes to the same merged result as the uninterrupted run. -/
theorem resume_equivalence_witness :
    (exportChannelHistory ds60 ((fullRun ds60).pages.take 1)).messages =
      (fullRun ds60).messages ∧
    (exportChannelHistory ds60 ((fullRun ds60).pages.take 1)).pages =
      (fullRun ds60).pages :=
  resume_equivalence ds60 1 (by decide)

/-- C2: Pagination completeness.  For a non-empty dataset of N messages
with pairwise-distinct ids, an uninterrupted run fetches exactly
`ceil(N/50)` pages, the final page has length `N mod 50` (or 50 if 50
divides N), and the accumulated record list is the whole dataset (length
N).  The loop stops exactly on an empty or short page by construction of
`exportLoop`. -/
theorem pagination_completeness (ds : List Msg)
    (hn : (ds.map Msg.id).Nodup) (hne : ds ≠ []) :
    (fullRun ds).pages.length = (ds.length + 49) / 50 ∧
    (fullRun ds).pages.getLast?.map List.length =
      some (if ds.length % 50 = 0 then 50 else ds.length % 50) ∧
    (fullRun ds).messages.length = ds.length ∧
    (fullRun ds).messages = ds := by
  obtain ⟨hm, hp⟩ := fullRun_eq ds hn
  rw [hm, hp, chunks50_length, chunks50_getLast ds hne]
  exact ⟨rfl, rfl, rfl, rfl⟩

/-- C2 witness: the 120-message scenario yields ceil(120/50) = 3 pages,
a final page of 20, and 120 accumulated records. -/
theorem pagination_completeness_witness :
    (fullRun ds120).pages.length = (ds120.length + 49) / 50 ∧
    (fullRun ds120).pages.getLast?.map List.length =
      some (if ds120.length % 50 = 0 then 50 else ds120.length % 50) ∧
    (fullRun ds120).messages.length = ds120.length ∧
    (fullRun ds120).messages = ds120 :=
  pagination_completeness ds120 (by decide) (by decide)

/-- C3: No-retry error handling.  If the fetch numbered `j` (0-based)
raises a transport or API error while the loop is still mid-channel
(`50 * j ≤ N`), the loop terminates at once without retrying and returns
exactly the records accumulated from the `j` earlier pages; the `j` page
artifacts already on disk are exactly the first `j` pages of an
uninterrupted run and are not deleted. -/
theorem no_retry_error_handling (ds : List Msg) (j : Nat)
    (hn : (ds.map Msg.id).Nodup) (hj : 50 * j ≤ ds.length) :
    exportLoopErr ds j (ds.length + 1) 0 [] [] none =
      ((fullRun ds).messages.take (50 * j), (fullRun ds).pages.take j) := by
  obtain ⟨hm, hp⟩ := fullRun_eq ds hn
  rw [hm, hp]
  have h := exportLoopErr_spec ds hn j (ds.length + 1) [] ds [] [] 0 rfl
    (by omega) (by omega) (by simpa using hj)
  simpa [lastIdOf] using h

/-- C3 witness: a 60-message channel whose second fetch fails returns the
50 already-captured records and leaves the single page artifact on
disk. -/
theorem no_retry_error_handling_witness :
    exportLoopErr ds60 1 (ds60.length + 1) 0 [] [] none =
      ((fullRun ds60).messages.take (50 * 1), (fullRun ds60).pages.take 1) :=
  no_retry_error_handling ds60 1 (by decide) (by decide)

theorem runSaveSteps_writeTmp_checkpoint (l : List String) :
    ∀ fs : CheckpointFS,
      (runSaveSteps fs (l.map SaveStep.writeTmp)).checkpoint = fs.checkpoint := by
  induction l with
  | nil => intro fs; rfl
  | cons c cs ih =>
    intro fs
    simp only [List.map_cons, runSaveSteps, List.foldl_cons]
    exact ih { fs with tmp := some c }

theorem runSaveSteps_writeTmp_tmp (l : List String) (c : String) :
    ∀ fs : CheckpointFS,
      (runSaveSteps fs ((l ++ [c]).map SaveStep.writeTmp)).tmp = some c := by
  induction l with
  | nil => intro fs; rfl
  | cons x xs ih =>
    intro fs
    simp only [List.cons_append, List.map_cons, runSaveSteps, List.foldl_cons]
    exact ih { fs with tmp := some x }

/-- C4: Checkpoint write atomicity.  `_save_checkpoint` writes the full
new content to a temporary file and renames it over the checkpoint path;
after any prefix of its primitive steps — i.e. at every crash point mid
write — the checkpoint file holds either its previous content or the
fully-written new content, never a partial write. -/
theorem checkpoint_atomicity (fs0 : CheckpointFS) (partials : List String)
    (newContent : String) (k : Nat) :
    (runSaveSteps fs0 ((saveCheckpointTrace partials newContent).take k)).checkpoint
        = fs0.checkpoint ∨
    (runSaveSteps fs0 ((saveCheckpointTrace partials newContent).take k)).checkpoint
        = some newContent := by
  have htr : saveCheckpointTrace partials newContent =
      ((partials ++ [newContent]).map SaveStep.writeTmp) ++ [SaveStep.rename] := by
    unfold saveCheckpointTrace
    simp
  rw [htr]
  by_cases hk : k ≤ ((partials ++ [newContent]).map SaveStep.writeTmp).length
  · left
    rw [List.take_append_of_le_length hk, ← List.map_take]
    exact runSaveSteps_writeTmp_checkpoint _ fs0
  · right
    push_neg at hk
    have hlen : (((partials ++ [newContent]).map SaveStep.writeTmp) ++
        [SaveStep.rename]).length ≤ k := by
      simp only [List.length_append, List.length_map, List.length_cons,
        List.length_nil] at *
      omega
    rw [List.take_of_length_le hlen]
    unfold runSaveSteps
    rw [List.foldl_append]
    show (applySaveStep (runSaveSteps fs0 _) SaveStep.rename).checkpoint = _
    unfold applySaveStep
    simp only []
    exact runSaveSteps_writeTmp_tmp partials newContent fs0

theorem deletePages_clears (j : Nat) :
    ∀ (fuel start : Nat) (disk : Nat → Option (List Msg)),
      (∀ n, (disk n).isSome ↔ (start ≤ n ∧ n < start + j)) → j < fuel →
      ∀ m, deletePages disk start fuel m = none := by
  induction j with
  | zero =>
    intro fuel start disk hsupp hf m
    obtain ⟨f, rfl⟩ : ∃ f, fuel = f + 1 := ⟨fuel - 1, by omega⟩
    have hall : ∀ n, disk n = none := by
      intro n
      rcases hdn : disk n with _ | p
      · rfl
      · have := (hsupp n).mp (by rw [hdn]; rfl)
        omega
    simp only [deletePages, hall start]
    exact hall m
  | succ j ih =>
    intro fuel start disk hsupp hf m
    obtain ⟨f, rfl⟩ : ∃ f, fuel = f + 1 := ⟨fuel - 1, by omega⟩
    have h0 : (disk start).isSome := (hsupp start).mpr ⟨Nat.le_refl _, by omega⟩
    obtain ⟨p, hp⟩ := Option.isSome_iff_exists.mp h0
    simp only [deletePages, hp]
    refine ih f (start + 1) (fun n => if n = start then none else disk n)
      ?_ (by omega) m
    intro n
    show (if n = start then none else disk n).isSome = true ↔
      start + 1 ≤ n ∧ n < start + 1 + j
    by_cases hns : n = start
    · subst hns
      rw [if_pos rfl]
      simp only [Option.isSome_none, Bool.false_eq_true, false_iff]
      omega
    · rw [if_neg hns, hsupp n]
      omega

theorem diskOfPages_isSome (pages : List (List Msg)) (n : Nat) :
    (diskOfPages pages n).isSome ↔ (1 ≤ n ∧ n < 1 + pages.length) := by
  unfold diskOfPages
  by_cases h : n = 0
  · subst h; simp
  · rw [if_neg h]
    rw [Option.isSome_iff_ne_none]
    constructor
    · intro hne
      have : ¬ pages.length ≤ n - 1 := fun hle => hne (List.getElem?_eq_none hle)
      omega
    · intro hn he
      rw [List.getElem?_eq_none_iff] at he
      omega

/-- C5: Merge postcondition.  When a capture loop over a dataset with
pairwise-distinct ids ends normally, `_merge_and_cleanup_pages` produces
one merged artifact whose messages are the concatenation of the page
artifacts in ascending page-index order (within-page order preserved, no
deduplication), whose `total_messages` equals the length of its message
list, and afterwards no page artifact for the channel remains on disk. -/
theorem merge_postcondition (ds : List Msg) (ch : String)
    (hn : (ds.map Msg.id).Nodup) :
    (mergeAndCleanupPages ch (fullRun ds).messages (diskOfPages (fullRun ds).pages)
        ((fullRun ds).pages.length + 1)).1.messages = (fullRun ds).pages.flatten ∧
    (mergeAndCleanupPages ch (fullRun ds).messages (diskOfPages (fullRun ds).pages)
        ((fullRun ds).pages.length + 1)).1.total_messages =
      (fullRun ds).messages.length ∧
    (mergeAndCleanupPages ch (fullRun ds).messages (diskOfPages (fullRun ds).pages)
        ((fullRun ds).pages.length + 1)).2 = fun _ => none := by
  obtain ⟨hm, hp⟩ := fullRun_eq ds hn
  refine ⟨?_, rfl, ?_⟩
  · show (fullRun ds).messages = (fullRun ds).pages.flatten
    rw [hm, hp, chunks50_flatten]
  · show deletePages (diskOfPages (fullRun ds).pages) 1
        ((fullRun ds).pages.length + 1) = fun _ => none
    funext m
    exact deletePages_clears (fullRun ds).pages.length
      ((fullRun ds).pages.length + 1) 1 (diskOfPages (fullRun ds).pages)
      (fun n => diskOfPages_isSome (fullRun ds).pages n) (by omega) m

/-- C5 witness: the merge of a concrete 3-message capture produces the
flattened page list with a matching count and an empty page directory. -/
theorem merge_postcondition_witness :
    (mergeAndCleanupPages "chan" (fullRun ds3).messages
        (diskOfPages (fullRun ds3).pages) ((fullRun ds3).pages.length + 1)).1.messages
      = (fullRun ds3).pages.flatten ∧
    (mergeAndCleanupPages "chan" (fullRun ds3).messages
        (diskOfPages (fullRun ds3).pages) ((fullRun ds3).pages.length + 1)).1.total_messages
      = (fullRun ds3).messages.length ∧
    (mergeAndCleanupPages "chan" (fullRun ds3).messages
        (diskOfPages (fullRun ds3).pages) ((fullRun ds3).pages.length + 1)).2
      = fun _ => none :=
  merge_postcondition ds3 "chan" (by decide)

set_option maxRecDepth 4000 in
/-- C6 counterexample: for the concrete 120-message three-page scenario,
the checkpoint entry after merge is `{status: "done",
messages_exported: 120}`; it does not carry `pages_fetched = 3` and has
no `last_message_id` key, contradicting the claimed post-merge record
shape.  The `pages_fetched`/`last_message_id` keys appear only in the
three `in_progress` entries written during capture. -/
theorem checkpoint_done_shape_counterexample :
    (processServerChannel ds120 "chan" ⟨none, none, []⟩).1.record =
      some ⟨"done", none, 120, none⟩ ∧
    (⟨"done", none, 120, none⟩ : ChannelRecord).pages_fetched ≠ some 3 ∧
    (⟨"done", none, 120, none⟩ : ChannelRecord).last_message_id = none ∧
    (fullRun ds120).records =
      [⟨"in_progress", some 1, 50, some 49⟩,
       ⟨"in_progress", some 2, 100, some 99⟩,
       ⟨"in_progress", some 3, 120, some 119⟩] := by
  decide

/-- C6 (amended): after a channel is captured and merged successfully,
`export_server_full` rewrites the channel's checkpoint entry to contain
exactly `status = "done"` and `messages_exported = N`; `pages_fetched`
and `last_message_id` are present only in the `in_progress` entries
written during capture and are dropped from the final entry. -/
theorem checkpoint_done_shape (ds : List Msg) (ch : String)
    (hn : (ds.map Msg.id).Nodup) :
    (processServerChannel ds ch ⟨none, none, []⟩).1.record =
      some (doneRecord ds.length) := by
  have hrun : (exportChannelHistory ds []).messages = ds := (fullRun_eq ds hn).1
  unfold processServerChannel
  rw [if_neg (by simp [skipChannel])]
  simp only [hrun]
  by_cases hds : ds = []
  · subst hds
    simp [doneRecord]
  · have hemp : ¬ (ds.isEmpty = true) := by
      rcases ds with _ | ⟨x, xs⟩
      · exact absurd rfl hds
      · simp
    rw [if_neg hemp]

/-- C6 witness: the amended post-merge record shape on a concrete
3-message channel. -/
theorem checkpoint_done_shape_witness :
    (processServerChannel ds3 "chan" ⟨none, none, []⟩).1.record =
      some (doneRecord ds3.length) :=
  checkpoint_done_shape ds3 "chan" (by decide)

/-- C7 counterexample: the translator applies marks in their input-list
order, so the rendered output is not invariant under permutation of the
marks list: a leaf with marks `[bold, underline]` renders differently
from the same leaf with marks `[underline, bold]`. -/
theorem mark_order_counterexample :
    processLeaf ⟨"text", [⟨"bold"⟩, ⟨"underline"⟩]⟩ ≠
      processLeaf ⟨"text", [⟨"underline"⟩, ⟨"bold"⟩]⟩ := by
  decide

/-- C7 (amended): `_process_text` applies a leaf's marks sequentially in
their input order, each wrapping the text accumulated so far, so the
output generally depends on the input order of the marks; for the
specific pair {bold, italic}, however, both orders render `***text***`
because the delimiters concatenate identically. -/
theorem mark_bold_italic_render (t : String) :
    processLeaf ⟨t, [⟨"bold"⟩, ⟨"italic"⟩]⟩ = "***" ++ t ++ "***" ∧
    processLeaf ⟨t, [⟨"italic"⟩, ⟨"bold"⟩]⟩ = "***" ++ t ++ "***" := by
  have h : ∀ a b : String, a ++ b = ⟨a.data ++ b.data⟩ := fun a b => rfl
  obtain ⟨d⟩ := t
  refine ⟨?_, ?_⟩ <;>
    simp [processLeaf, applyMark, h, List.append_assoc]

/-- C8 counterexample: an inline node of unrecognized type renders as the
empty string, not as its inner text — `_process_inline` falls through to
`return ""`, dropping the node's text content. -/
theorem unknown_inline_drop_counterexample :
    processInline "mystery-inline" [Node.text "" [⟨"hello", []⟩] emptyData]
        emptyData = "" ∧
    processInline "mystery-inline" [Node.text "" [⟨"hello", []⟩] emptyData]
        emptyData ≠ "hello" := by
  refine ⟨rfl, ?_⟩
  decide

/-- C8 (amended): translation of unknown kinds never raises (all
renderers are total); an unknown block type renders its children's text
content with no wrapping, an unknown mark type leaves the leaf's text
unchanged, but an unknown inline type renders as the empty string,
dropping its inner text. -/
theorem unknown_kind_fallback (bt mt it t : String) (nodes : List Node)
    (d : NodeData)
    (hb : bt ∉ (["markdown-plain-text", "paragraph", "code-line"] : List String))
    (hm : mt ∉ (["bold", "italic", "underline", "strikethrough", "code"] : List String))
    (hi : it ∉ (["link", "mention", "reaction"] : List String)) :
    processBlock bt nodes = blockContent nodes ∧
    applyMark t mt = t ∧
    processInline it nodes d = "" := by
  simp only [List.mem_cons, List.not_mem_nil, or_false, not_or] at hb hm hi
  obtain ⟨hb1, hb2, hb3⟩ := hb
  obtain ⟨hm1, hm2, hm3, hm4, hm5⟩ := hm
  obtain ⟨hi1, hi2, hi3⟩ := hi
  refine ⟨?_, ?_, ?_⟩
  · simp only [processBlock]
    rw [if_neg hb1, if_neg hb2, if_neg hb3]
  · simp only [applyMark]
    rw [if_neg hm1, if_neg hm2, if_neg hm3, if_neg hm4, if_neg hm5]
  · simp only [processInline]
    rw [if_neg hi1, if_neg hi2, if_neg hi3]

/-- C8 witness: the amended fallbacks at concrete unknown kinds. -/
theorem unknown_kind_fallback_witness :
    processBlock "banner" [] = blockContent [] ∧
    applyMark "x" "wavy" = "x" ∧
    processInline "custom-embed" [] emptyData = "" :=
  unknown_kind_fallback "banner" "wavy" "custom-embed" "x" [] emptyData
    (by decide) (by decide) (by decide)

theorem permFold_filter (flags : List (String × Bool)) :
    ∀ acc : Nat,
      flags.foldl
        (fun a f =>
          if f.2 && (lookupPerm f.1).isSome then a ||| (lookupPerm f.1).getD 0 else a)
        acc =
      (flags.filter (fun f => f.2 && (lookupPerm f.1).isSome)).foldl
        (fun a f => a ||| (lookupPerm f.1).getD 0) acc := by
  induction flags with
  | nil => intro acc; rfl
  | cons f fs ih =>
    intro acc
    by_cases h : (f.2 && (lookupPerm f.1).isSome) = true
    · rw [List.foldl_cons, if_pos h, List.filter_cons, if_pos h, List.foldl_cons,
        ih]
    · rw [List.foldl_cons, if_neg h, List.filter_cons, if_neg h, ih]

theorem convert_permissions_flatten (perms : List (String × List (String × Bool))) :
    ∀ acc : Nat,
      perms.foldl
        (fun acc cat =>
          cat.2.foldl
            (fun a f =>
              if f.2 && (lookupPerm f.1).isSome then a ||| (lookupPerm f.1).getD 0
              else a)
            acc)
        acc =
      (perms.flatMap Prod.snd).foldl
        (fun a f =>
          if f.2 && (lookupPerm f.1).isSome then a ||| (lookupPerm f.1).getD 0
          else a)
        acc := by
  induction perms with
  | nil => intro acc; rfl
  | cons c cs ih =>
    intro acc
    rw [List.foldl_cons, List.flatMap_cons, List.foldl_append, ih]

theorem convert_eq_bitmaskSpec (perms : List (String × List (String × Bool))) :
    convert_permissions perms = bitmaskSpec perms := by
  unfold convert_permissions bitmaskSpec
  rw [convert_permissions_flatten perms 0, permFold_filter]

theorem orFold_persist (l : List (String × Bool)) :
    ∀ (acc x : Nat), x ||| acc = acc →
      x ||| (l.foldl (fun a f => a ||| (lookupPerm f.1).getD 0) acc) =
        l.foldl (fun a f => a ||| (lookupPerm f.1).getD 0) acc := by
  induction l with
  | nil => intro acc x h; exact h
  | cons g gs ih =>
    intro acc x h
    rw [List.foldl_cons]
    exact ih _ x (by rw [← Nat.or_assoc, h])

theorem orFold_mem (l : List (String × Bool)) :
    ∀ (acc : Nat) (f : String × Bool), f ∈ l →
      (lookupPerm f.1).getD 0 |||
          (l.foldl (fun a g => a ||| (lookupPerm g.1).getD 0) acc) =
        l.foldl (fun a g => a ||| (lookupPerm g.1).getD 0) acc := by
  induction l with
  | nil => intro acc f hf; cases hf
  | cons g gs ih =>
    intro acc f hf
    rw [List.foldl_cons]
    rcases List.mem_cons.mp hf with rfl | hf2
    · apply orFold_persist
      rw [Nat.or_comm acc _, ← Nat.or_assoc, Nat.or_self]
    · exact ih _ f hf2

theorem orFold_bound (l : List (String × Bool)) :
    ∀ (acc B : Nat), acc ||| B = B →
      (∀ f ∈ l, (lookupPerm f.1).getD 0 ||| B = B) →
      (l.foldl (fun a f => a ||| (lookupPerm f.1).getD 0) acc) ||| B = B := by
  induction l with
  | nil => intro acc B h _; exact h
  | cons g gs ih =>
    intro acc B h hl
    rw [List.foldl_cons]
    apply ih
    · rw [Nat.or_assoc, hl g (List.mem_cons_self _ _), h]
    · intro f hf
      exact hl f (List.mem_cons_of_mem _ hf)

/-- C9: Permission mapping exactness.  `convert_permissions` returns the
bitwise OR, over every category and every flag in it whose value is true
and whose name is in the static lookup table, of that flag's bit pattern
(`bitmaskSpec` restates the spec's words); flags absent from the table
are silently ignored.  In particular, whenever `CanInviteMembers` and
`CanKickMembers` are the only true flags in the whole permission set, the
result is exactly `0x00000001 ||| 0x00000006`. -/
theorem permission_mapping (perms : List (String × List (String × Bool)))
    (honly : ∀ cat ∈ perms, ∀ f ∈ cat.2, f.2 = true →
      f.1 = "CanInviteMembers" ∨ f.1 = "CanKickMembers")
    (hA : ∃ cat ∈ perms, ("CanInviteMembers", true) ∈ cat.2)
    (hB : ∃ cat ∈ perms, ("CanKickMembers", true) ∈ cat.2) :
    convert_permissions perms = bitmaskSpec perms ∧
    convert_permissions perms = 0x00000001 ||| 0x00000006 := by
  refine ⟨convert_eq_bitmaskSpec perms, ?_⟩
  rw [convert_eq_bitmaskSpec perms]
  unfold bitmaskSpec
  have hub :
      ((perms.flatMap Prod.snd).filter
          (fun f => f.2 && (lookupPerm f.1).isSome)).foldl
        (fun a f => a ||| (lookupPerm f.1).getD 0) 0 ||| 7 = 7 := by
    apply orFold_bound
    · decide
    · intro f hf
      have hmem := List.mem_filter.mp hf
      have hand := hmem.2
      rw [Bool.and_eq_true] at hand
      have htrue : f.2 = true := hand.1
      obtain ⟨cat, hcat, hfcat⟩ := List.mem_flatMap.mp hmem.1
      rcases honly cat hcat f hfcat htrue with hname | hname <;>
        rw [hname] <;> decide
  have hAin : (("CanInviteMembers", true) : String × Bool) ∈
      (perms.flatMap Prod.snd).filter
        (fun f => f.2 && (lookupPerm f.1).isSome) := by
    apply List.mem_filter.mpr
    obtain ⟨cat, hcat, hmem⟩ := hA
    exact ⟨List.mem_flatMap.mpr ⟨cat, hcat, hmem⟩, by decide⟩
  have hBin : (("CanKickMembers", true) : String × Bool) ∈
      (perms.flatMap Prod.snd).filter
        (fun f => f.2 && (lookupPerm f.1).isSome) := by
    apply List.mem_filter.mpr
    obtain ⟨cat, hcat, hmem⟩ := hB
    exact ⟨List.mem_flatMap.mpr ⟨cat, hcat, hmem⟩, by decide⟩
  have h1 := orFold_mem _ 0 _ hAin
  have h6 := orFold_mem _ 0 _ hBin
  dsimp only at h1 h6
  have hv1 : (lookupPerm "CanInviteMembers").getD 0 = 1 := by decide
  have hv6 : (lookupPerm "CanKickMembers").getD 0 = 6 := by decide
  rw [hv1] at h1
  rw [hv6] at h6
  have h16 : (0x00000001 ||| 0x00000006 : Nat) = 7 := by decide
  rw [h16]
  have h7 :
      (7 : Nat) |||
        ((perms.flatMap Prod.snd).filter
            (fun f => f.2 && (lookupPerm f.1).isSome)).foldl
          (fun a f => a ||| (lookupPerm f.1).getD 0) 0 =
      ((perms.flatMap Prod.snd).filter
          (fun f => f.2 && (lookupPerm f.1).isSome)).foldl
        (fun a f => a ||| (lookupPerm f.1).getD 0) 0 := by
    have hsplit : (7 : Nat) = 1 ||| 6 := by decide
    rw [hsplit, Nat.or_assoc, h6, h1]
  rw [Nat.or_comm] at hub
  rw [h7] at hub
  exact hub

/-- C9 witness: the spec's concrete permission set maps to exactly
`0x00000001 ||| 0x00000006`. -/
theorem permission_mapping_witness :
    convert_permissions
        [("general", [("CanInviteMembers", true), ("CanKickMembers", true)])] =
      bitmaskSpec
        [("general", [("CanInviteMembers", true), ("CanKickMembers", true)])] ∧
    convert_permissions
        [("general", [("CanInviteMembers", true), ("CanKickMembers", true)])] =
      0x00000001 ||| 0x00000006 :=
  permission_mapping
    [("general", [("CanInviteMembers", true), ("CanKickMembers", true)])]
    (by decide) (by decide) (by decide)

theorem skipChannel_false_of_merged_none (st : ServerChannelState)
    (h : st.merged = none) : skipChannel st = false := by
  unfold skipChannel
  rcases hr : st.record with _ | r
  · rfl
  · rw [h]
    simp

theorem processServerChannel_empty (ds : List Msg) (ch : String)
    (st : ServerChannelState)
    (hempty : (exportChannelHistory ds st.pagesOnDisk).messages = [])
    (hmerged : st.merged = none) :
    processServerChannel ds ch st = ({ st with record := some (doneRecord 0) }, true) := by
  have hskip := skipChannel_false_of_merged_none st hmerged
  unfold processServerChannel
  rw [if_neg (by rw [hskip]; simp)]
  simp only [hempty]
  simp [List.isEmpty_nil]

/-- C10: a channel whose capture yields zero messages is marked `done`
with `messages_exported = 0` but no merged artifact is ever written, so
the skip-on-resume check (which requires both `done` status and an
existing merged artifact) fails and the channel is fetched from the API
again on the next pass — and, the state being a fixed point, on every
subsequent pass. -/
theorem empty_channel_refetch (ds : List Msg) (ch : String)
    (st : ServerChannelState)
    (hempty : (exportChannelHistory ds st.pagesOnDisk).messages = [])
    (hmerged : st.merged = none) :
    (processServerChannel ds ch st).1.record = some (doneRecord 0) ∧
    (processServerChannel ds ch st).1.merged = none ∧
    (processServerChannel ds ch st).2 = true ∧
    skipChannel (processServerChannel ds ch st).1 = false ∧
    (processServerChannel ds ch ((processServerChannel ds ch st).1)).2 = true ∧
    (processServerChannel ds ch ((processServerChannel ds ch st).1)).1 =
      (processServerChannel ds ch st).1 := by
  have hres := processServerChannel_empty ds ch st hempty hmerged
  have hempty1 :
      (exportChannelHistory ds
        ({ st with record := some (doneRecord 0) } : ServerChannelState).pagesOnDisk).messages
        = [] := hempty
  have hmerged1 :
      ({ st with record := some (doneRecord 0) } : ServerChannelState).merged = none :=
    hmerged
  have hres1 := processServerChannel_empty ds ch
    { st with record := some (doneRecord 0) } hempty1 hmerged1
  rw [hres]
  refine ⟨rfl, hmerged, rfl, ?_, ?_, ?_⟩
  · exact skipChannel_false_of_merged_none _ hmerged1
  · rw [hres1]
  · rw [hres1]

/-- C10 witness: a concrete empty channel is re-fetched on the second
pass and its state is unchanged by it. -/
theorem empty_channel_refetch_witness :
    (processServerChannel [] "chan" ⟨none, none, []⟩).1.record =
      some (doneRecord 0) ∧
    (processServerChannel [] "chan" ⟨none, none, []⟩).1.merged = none ∧
    (processServerChannel [] "chan" ⟨none, none, []⟩).2 = true ∧
    skipChannel (processServerChannel [] "chan" ⟨none, none, []⟩).1 = false ∧
    (processServerChannel [] "chan"
      ((processServerChannel [] "chan" ⟨none, none, []⟩).1)).2 = true ∧
    (processServerChannel [] "chan"
      ((processServerChannel [] "chan" ⟨none, none, []⟩).1)).1 =
      (processServerChannel [] "chan" ⟨none, none, []⟩).1 :=
  empty_channel_refetch [] "chan" ⟨none, none, []⟩ (by decide) rfl

end GuildedExport
